import Mathlib

/-!
Verification development for the CharacterCard Studio sync engine.

The definitions below are a shallow embedding of the TypeScript sources:
`services/sync.ts` (SyncService), `services/pull.ts` (PullService),
`utils/diff-engine.ts` (DiffEngine), `utils/file-utils.ts` (FileUtils),
`utils/parser.ts` (YamlParser), `types/schemas.ts` (zod schemas) and
`watch.ts` (FileWatcher).  File IO is modelled by explicit state passing:
the YAML files are represented by the records they parse to, and the
`entries/` directory by a tree of named nodes.  JavaScript numbers are
modelled by `Int` (all numeric fields hold integers in every code path the
claims touch), and nullable/optional fields by `Option`.
-/

namespace CCS

/-- The `position` field of a remote entry: `z.union([z.number().int(), z.string()])`. -/
inductive JPos where
  | num (n : Int)
  | str (s : String)
deriving DecidableEq, Repr

/-- A JSON value as produced by `DiffEngine.normalizeEntry` (string, number,
boolean, or array of strings — the only shapes a `WorldInfoEntry` field can have). -/
inductive JVal where
  | s (v : String)
  | n (v : Int)
  | b (v : Bool)
  | arr (v : List String)
deriving DecidableEq, Repr

/-- A full world-info entry, the output type of `WorldInfoEntrySchema`
(`types/schemas.ts`).  Nullable fields (`scanDepth`, …) and the optional
`comment`, `keys`, `secondary_keys` are `Option`; everything else is total
because the schema supplies a default. -/
structure WorldInfoEntry where
  uid : Int
  key : List String
  keys : Option (List String)
  keysecondary : List String
  secondary_keys : Option (List String)
  comment : Option String
  content : String
  constant : Bool
  selective : Bool
  selectiveLogic : Int
  order : Int
  position : JPos
  disable : Bool
  excludeRecursion : Bool
  preventRecursion : Bool
  delayUntilRecursion : Bool
  probability : Int
  useProbability : Bool
  depth : Int
  group : String
  groupOverride : Bool
  groupWeight : Int
  scanDepth : Option Int
  caseSensitive : Option Bool
  matchWholeWords : Option Bool
  useGroupScoring : Option Bool
  automationId : String
  role : Option Int
  sticky : Option Int
  cooldown : Option Int
  delay : Option Int
deriving DecidableEq, Repr

/-- A content file `entries/<id>.yaml` (`ContentFileSchema`). -/
structure ContentFile where
  key : List String
  keysecondary : List String
  content : String
deriving DecidableEq, Repr

/-- One element of the `entries` list of `index.yaml`.  `parseIndex` performs
no schema validation, so every field a reader consults is optional; the code
guards `id` with a truthiness check, so an absent or empty id is modelled as `""`. -/
structure IndexEntry where
  id : String := ""
  comment : Option String := none
  enabled : Option Bool := none
  constant : Option Bool := none
  position : Option JPos := none
  order : Option Int := none
  depth : Option Int := none
  probability : Option Int := none
  group : Option String := none
  selective : Option Bool := none
  role : Option Int := none
  sticky : Option Int := none
  cooldown : Option Int := none
  delay : Option Int := none
  excludeRecursion : Option Bool := none
  preventRecursion : Option Bool := none
  delayUntilRecursion : Option Bool := none
  matchWholeWords : Option Bool := none
  caseSensitive : Option Bool := none
  useGroupScoring : Option Bool := none
  automationId : Option String := none
  scanDepth : Option Int := none
  groupOverride : Option Bool := none
  groupWeight : Option Int := none
deriving DecidableEq, Repr

/-- `index.yaml` as returned by `YamlParser.parseIndex`. -/
structure IndexFile where
  book_name : Option String := none
  global_settings : Option Bool := none
  entries : List IndexEntry := []
deriving DecidableEq, Repr

/-! ## Normalizer (`DiffEngine.normalizeEntry`, diff-engine.ts 109-152)

`normalizeEntry` drops `undefined`/`null` fields, the `IGNORED_FIELDS`
(of which only `uid` and `useGroupScoring` exist on a schema-shaped entry),
and `sticky`/`cooldown`/`delay`/`role` when they equal `0`, then emits the
remaining fields sorted by name.  The sorted field order is written out
explicitly below (the names are pairwise distinct string literals whose
lexicographic order is fixed). -/

/-- Optional boolean field: emitted unless `null`. -/
def optFieldB (name : String) : Option Bool → List (String × JVal)
  | some b => [(name, JVal.b b)]
  | none => []

/-- Optional string field: emitted unless `null`. -/
def optFieldS (name : String) : Option String → List (String × JVal)
  | some s => [(name, JVal.s s)]
  | none => []

/-- Optional numeric field: emitted unless `null`. -/
def optFieldN (name : String) : Option Int → List (String × JVal)
  | some n => [(name, JVal.n n)]
  | none => []

/-- Optional array field: emitted unless `null`. -/
def optFieldArr (name : String) : Option (List String) → List (String × JVal)
  | some l => [(name, JVal.arr l)]
  | none => []

/-- Numeric field treated as unset when `0` (`sticky`, `cooldown`, `delay`, `role`). -/
def optFieldZero (name : String) : Option Int → List (String × JVal)
  | some n => if n = 0 then [] else [(name, JVal.n n)]
  | none => []

/-- The `position` field as a JSON value. -/
def posJVal : JPos → JVal
  | .num n => JVal.n n
  | .str s => JVal.s s

/-- `DiffEngine.normalizeEntry`, as the ordered field list of the cleaned object. -/
def normalizeEntry (e : WorldInfoEntry) : List (String × JVal) :=
  [("automationId", JVal.s e.automationId)]
  ++ optFieldB "caseSensitive" e.caseSensitive
  ++ optFieldS "comment" e.comment
  ++ [("constant", JVal.b e.constant), ("content", JVal.s e.content)]
  ++ optFieldZero "cooldown" e.cooldown
  ++ optFieldZero "delay" e.delay
  ++ [("delayUntilRecursion", JVal.b e.delayUntilRecursion),
      ("depth", JVal.n e.depth),
      ("disable", JVal.b e.disable),
      ("excludeRecursion", JVal.b e.excludeRecursion),
      ("group", JVal.s e.group),
      ("groupOverride", JVal.b e.groupOverride),
      ("groupWeight", JVal.n e.groupWeight),
      ("key", JVal.arr e.key)]
  ++ optFieldArr "keys" e.keys
  ++ [("keysecondary", JVal.arr e.keysecondary)]
  ++ optFieldB "matchWholeWords" e.matchWholeWords
  ++ [("order", JVal.n e.order),
      ("position", posJVal e.position),
      ("preventRecursion", JVal.b e.preventRecursion),
      ("probability", JVal.n e.probability)]
  ++ optFieldZero "role" e.role
  ++ optFieldN "scanDepth" e.scanDepth
  ++ optFieldArr "secondary_keys" e.secondary_keys
  ++ [("selective", JVal.b e.selective), ("selectiveLogic", JVal.n e.selectiveLogic)]
  ++ optFieldZero "sticky" e.sticky
  ++ [("useProbability", JVal.b e.useProbability)]

/-- JSON string escaping as performed by `JSON.stringify` (the control
characters beyond `\n`, `\r`, `\t` do not occur in any value this
development evaluates). -/
def escapeJsonChar (c : Char) : String :=
  if c = '"' then "\\\""
  else if c = '\\' then "\\\\"
  else if c = '\n' then "\\n"
  else if c = '\r' then "\\r"
  else if c = '\t' then "\\t"
  else String.singleton c

def escapeJson (s : String) : String :=
  String.join (s.toList.map escapeJsonChar)

def renderJsonStr (s : String) : String := "\"" ++ escapeJson s ++ "\""

/-- A string array under `JSON.stringify(_, null, 2)` at nesting depth 1. -/
def renderJsonArr (items : List String) : String :=
  match items with
  | [] => "[]"
  | _ => "[\n" ++ String.intercalate ",\n" (items.map (fun s => "    " ++ renderJsonStr s)) ++ "\n  ]"

def renderJVal : JVal → String
  | .s v => renderJsonStr v
  | .n v => toString v
  | .b true => "true"
  | .b false => "false"
  | .arr v => renderJsonArr v

/-- `JSON.stringify(clean, null, 2)` on the cleaned, key-sorted object. -/
def renderJsonObject (ps : List (String × JVal)) : String :=
  match ps with
  | [] => "\x7b\x7d"
  | _ =>
    "\x7b\n"
    ++ String.intercalate ",\n"
        (ps.map (fun p => "  " ++ renderJsonStr p.1 ++ ": " ++ renderJVal p.2))
    ++ "\n\x7d"

/-- The canonical comparison string of an entry: `normalizeEntry` rendered as
stable JSON text.  Two entries are sync-equal iff their canonical strings agree. -/
def canonString (e : WorldInfoEntry) : String :=
  renderJsonObject (normalizeEntry e)

/-! ## Entry codec

The encoding direction is the per-entry body of `PullService.saveWorldBookLocal`
(pull.ts 80-151); the decoding direction is the per-entry body of
`SyncService.loadWorldBookFromLocal` (sync.ts 400-438) followed by the zod
validation step. -/

/-- One character of the filename sanitiser: the regex
`[^a-z0-9一-龥_\-.]/gi` keeps ASCII letters and digits, the CJK block
U+4E00-U+9FA5, and the three literals; everything else becomes an underscore. -/
def sanitizeChar (c : Char) : Char :=
  if ('a' ≤ c ∧ c ≤ 'z') ∨ ('A' ≤ c ∧ c ≤ 'Z') ∨ ('0' ≤ c ∧ c ≤ '9')
      ∨ c = '_' ∨ c = '-' ∨ c = '.'
      ∨ (0x4e00 ≤ c.val ∧ c.val ≤ 0x9fa5) then c else '_'

/-- The regex replace `/_{2,}/g → "_"`: collapse every run of underscores to
one (an underscore is dropped exactly when the next character is another). -/
def collapseUnderscores : List Char → List Char
  | [] => []
  | [c] => [c]
  | c :: c' :: rest =>
    if c = '_' ∧ c' = '_' then collapseUnderscores (c' :: rest)
    else c :: collapseUnderscores (c' :: rest)

def sanitizeName (s : String) : String :=
  String.mk (collapseUnderscores (s.toList.map sanitizeChar))

/-- `(entry.comment || `entry_${entry.uid}`)` sanitised, with the empty-string
fallback of pull.ts line 86. -/
def safeNameOf (e : WorldInfoEntry) : String :=
  let base := match e.comment with
    | some c => if c ≠ "" then c else "entry_" ++ toString e.uid
    | none => "entry_" ++ toString e.uid
  let s := sanitizeName base
  if s = "" then "entry_" ++ toString e.uid else s

/-- The `while (indexEntries.some(e => e.id === fileName))` suffixing loop.
The loop in the source terminates because only finitely many ids are taken;
here the same bound (`used.length + 1` candidates suffice) is supplied as fuel. -/
def uniquifyAux (used : List String) (base : String) : Nat → Nat → String
  | counter, 0 => base ++ "_" ++ toString counter
  | counter, fuel + 1 =>
    let cand := base ++ "_" ++ toString counter
    if used.contains cand then uniquifyAux used base (counter + 1) fuel else cand

def uniquify (used : List String) (base : String) : String :=
  if used.contains base then uniquifyAux used base 1 (used.length + 1) else base

/-- The per-entry encoding of `saveWorldBookLocal`: produce the content file
(keys + body, with `keysecondary` intentionally emptied, pull.ts 99-103) and
the index record (identity plus behavioural fields, pull.ts 115-148).
`usedIds` are the ids already taken by earlier entries of the same book. -/
def entryToIndexAndContent (e : WorldInfoEntry) (usedIds : List String) :
    IndexEntry × ContentFile :=
  let finalId := uniquify usedIds (safeNameOf e)
  let contentFile : ContentFile :=
    { key := e.key, keysecondary := [], content := e.content }
  let indexEntry : IndexEntry :=
    { id := finalId
      comment := match e.comment with
        | some c => if c ≠ "" ∧ c ≠ finalId then some c else none
        | none => none
      enabled := some (!e.disable)
      constant := some e.constant
      position := some e.position
      order := some e.order
      depth := some e.depth
      probability := if e.probability ≠ 100 then some e.probability else none
      group := if e.group ≠ "" then some e.group else none
      selective := if e.selective = false then some false else none
      role := e.role
      sticky := match e.sticky with
        | some n => if n ≠ 0 then some n else none
        | none => none
      cooldown := match e.cooldown with
        | some n => if n ≠ 0 then some n else none
        | none => none
      delay := match e.delay with
        | some n => if n ≠ 0 then some n else none
        | none => none
      excludeRecursion := if e.excludeRecursion then some true else none
      preventRecursion := if e.preventRecursion then some true else none
      delayUntilRecursion := if e.delayUntilRecursion then some true else none
      matchWholeWords := if e.matchWholeWords = some true then some true else none
      caseSensitive := if e.caseSensitive = some true then some true else none
      useGroupScoring := if e.useGroupScoring = some true then some true else none
      automationId := if e.automationId ≠ "" then some e.automationId else none
      scanDepth := none
      groupOverride := none
      groupWeight := none }
  (indexEntry, contentFile)

/-- The decoding of one index entry plus its content file at list position `i`
(sync.ts 400-438): every field is filled, defaults substituted for absent ones,
`comment` falls back to the id, and `uid` is set to the position. -/
def indexAndContentToEntry (ix : IndexEntry) (cf : ContentFile) (i : Nat) :
    WorldInfoEntry :=
  { uid := (i : Int)
    key := cf.key
    keys := none
    keysecondary := cf.keysecondary
    secondary_keys := none
    content := cf.content
    comment := some (match ix.comment with
      | some c => if c ≠ "" then c else ix.id
      | none => ix.id)
    disable := decide (ix.enabled = some false)
    constant := ix.constant.getD false
    selective := decide (ix.selective ≠ some false)
    order := ix.order.getD 100
    position := match ix.position with
      | some (.num n) => .num n
      | _ => .num 0
    depth := ix.depth.getD 4
    probability := ix.probability.getD 100
    group := ix.group.getD ""
    role := some (ix.role.getD 0)
    selectiveLogic := 0
    excludeRecursion := ix.excludeRecursion.getD false
    preventRecursion := ix.preventRecursion.getD false
    delayUntilRecursion := ix.delayUntilRecursion.getD false
    useProbability := true
    scanDepth := ix.scanDepth
    caseSensitive := ix.caseSensitive
    matchWholeWords := ix.matchWholeWords
    useGroupScoring := some (ix.useGroupScoring.getD false)
    automationId := ix.automationId.getD ""
    sticky := ix.sticky
    cooldown := ix.cooldown
    delay := ix.delay
    groupOverride := ix.groupOverride.getD false
    groupWeight := ix.groupWeight.getD 100 }

/-- `ValidationUtils.validate(WorldInfoEntrySchema, e)` on an already-shaped
entry: every structural constraint of the schema holds by typing, leaving the
one refutable check `probability: z.number().min(0).max(100)`.  Returns the
entry on success and `none` on failure (the caller skips the entry). -/
def validateEntry (e : WorldInfoEntry) : Option WorldInfoEntry :=
  if 0 ≤ e.probability ∧ e.probability ≤ 100 then some e else none

/-- The full per-entry round trip at position `i`, encoding with no sibling ids. -/
def entryRoundTrip (e : WorldInfoEntry) (i : Nat) : WorldInfoEntry :=
  let p := entryToIndexAndContent e []
  indexAndContentToEntry p.1 p.2 i

/-! ## Local store: the `entries/` tree and `FileUtils.findEntryFile` -/

/-- What a file on disk parses to: a content file, or a YAML parse failure. -/
inductive FileData where
  | parsed (cf : ContentFile)
  | unparsable
deriving DecidableEq, Repr

/-- One node of the `entries/` subtree. -/
inductive FsNode where
  | file (name : String) (data : FileData)
  | dir (name : String) (children : List FsNode)

def FsNode.name : FsNode → String
  | .file n _ => n
  | .dir n _ => n

mutual
/-- One step of the recursive depth-first search of `findEntryFile`
(file-utils.ts 22-36): a directory is entered (returning the found path
extended with the directory name), a file's name is compared exactly against
`id + ".yaml"` and `id + ".yml"`. -/
def searchEntryNode (entryId : String) : FsNode → Option (List String)
  | .file fname _ =>
    if fname = entryId ++ ".yaml" ∨ fname = entryId ++ ".yml" then some [fname]
    else none
  | .dir dname kids => (searchEntry entryId kids).map (dname :: ·)

/-- The `for (const file of files)` loop of the search: first match wins, in
directory-listing order.  Returns the path (list of names from the root). -/
def searchEntry (entryId : String) : List FsNode → Option (List String)
  | [] => none
  | n :: rest =>
    match searchEntryNode entryId n with
    | some p => some p
    | none => searchEntry entryId rest
end

/-- `FileUtils.findEntryFile` (file-utils.ts 11-39): fast path via
`fs.existsSync` directly under the root (which answers true for a directory of
that name as well), then the recursive search. -/
def findEntryFile (tree : List FsNode) (entryId : String) : Option (List String) :=
  if tree.any (fun n => n.name = entryId ++ ".yaml") then some [entryId ++ ".yaml"]
  else if tree.any (fun n => n.name = entryId ++ ".yml") then some [entryId ++ ".yml"]
  else searchEntry entryId tree

/-- `fs.readFileSync` + `YamlParser.parseContent` at a path inside the entries
tree: `none` when the path names a directory or nothing (the read throws). -/
def readAt : List FsNode → List String → Option FileData
  | _, [] => none
  | ns, [name] =>
    match ns.find? (fun n => n.name = name) with
    | some (.file _ d) => some d
    | _ => none
  | ns, name :: rest =>
    match ns.find? (fun n => n.name = name) with
    | some (.dir _ kids) => readAt kids rest
    | _ => none

/-! ## Loading a local book (`SyncService.loadWorldBookFromLocal`, sync.ts 367-447) -/

/-- A local book root: `index.yaml` (or `none` when the file does not exist)
and the children of the `entries/` directory. -/
structure LocalState where
  index : Option IndexFile
  entriesTree : List FsNode

/-- The body of the `for` loop of `loadWorldBookFromLocal` for the index entry
at position `i`: skip on a missing id, skip (intentional deletion) when no
content file is found, skip on an unreadable or unparsable content file, and
otherwise decode and validate. -/
def processIndexEntry (tree : List FsNode) (i : Nat) (ix : IndexEntry) :
    Option WorldInfoEntry :=
  if ix.id = "" then none
  else
    match findEntryFile tree ix.id with
    | none => none
    | some path =>
      match readAt tree path with
      | some (.parsed cf) => validateEntry (indexAndContentToEntry ix cf i)
      | _ => none

/-- `for (let i = 0; i < entries.length; i++)` pairing each entry with its index. -/
def enumFrom (i : Nat) : List α → List (Nat × α)
  | [] => []
  | a :: rest => (i, a) :: enumFrom (i + 1) rest

/-- `loadWorldBookFromLocal`: the returned `worldInfo.entries` record.  The
JavaScript record is keyed by `String(i)`; since `String` is injective on
naturals the key is modelled by `i` itself, listed in enumeration order. -/
def loadWorldBookFromLocal (st : LocalState) : List (Nat × WorldInfoEntry) :=
  match st.index with
  | none => []
  | some idx =>
    (enumFrom 0 idx.entries).filterMap fun p =>
      (processIndexEntry st.entriesTree p.1 p.2).map (fun e => (p.1, e))

/-! ## Push (`SyncService.pushWorldBook`, sync.ts 547-568) -/

/-- The body of the remote replace call `POST /api/worldinfo/edit`. -/
structure PushPayload where
  name : String
  entries : List (Nat × WorldInfoEntry)

/-- `ValidationUtils.validate(WorldInfoSchema, wbData)`: the record shape holds
by construction, so the collection validates iff every entry does. -/
def validateWorldInfo (entries : List (Nat × WorldInfoEntry)) : Bool :=
  entries.all fun p => (validateEntry p.2).isSome

/-- `pushWorldBook`: abort when `index.yaml` is missing or the assembled
collection fails validation; otherwise the payload handed to the remote
replace call. -/
def pushWorldBook (st : LocalState) (finalName : String) : Except String PushPayload :=
  match st.index with
  | none => Except.error "Missing index.yaml"
  | some _ =>
    let wbData := loadWorldBookFromLocal st
    if validateWorldInfo wbData then Except.ok { name := finalName, entries := wbData }
    else Except.error ("Invalid WorldBook data for \"" ++ finalName ++ "\". Check logs above.")

/-! ## Pull (`PullService.saveWorldBookLocal` / `pullWorldBook`, pull.ts 27-206) -/

/-- The remote `entries` container: a map keyed by uid-strings or an array.
Lists stand in iteration order. -/
inductive RemoteEntries where
  | byMap (entries : List (String × WorldInfoEntry))
  | byArr (entries : List WorldInfoEntry)

/-- A fetched remote book.  `entries := none` models an absent/null `entries`
field; `fetched = none` at the call site models a null response. -/
structure RemoteBook where
  name : Option String
  entries : Option RemoteEntries

/-- The legacy alias repair of pull.ts 52-58: copy `keys` into an empty `key`
and `secondary_keys` into an empty `keysecondary`. -/
def normalizeLegacy (e : WorldInfoEntry) : WorldInfoEntry :=
  let e1 := match e.keys with
    | some ks => if e.key = [] then { e with key := ks } else e
    | none => e
  match e1.secondary_keys with
  | some ks => if e1.keysecondary = [] then { e1 with keysecondary := ks } else e1
  | none => e1

/-- `Object.values(entryMap)` / the array itself (pull.ts 41-45). -/
def rawRemoteList : RemoteEntries → List WorldInfoEntry
  | .byMap m => m.map Prod.snd
  | .byArr l => l

/-- The `(order, uid)` comparator of pull.ts 67-72: `cmp(a,b) < 0`. -/
def entryLt (a b : WorldInfoEntry) : Bool :=
  a.order < b.order || (a.order = b.order && a.uid < b.uid)

/-- Insert `a` into an already-sorted list, after every element not strictly
greater — the stable placement the (ES2019-stable) `Array.sort` guarantees. -/
def insertSorted (a : WorldInfoEntry) : List WorldInfoEntry → List WorldInfoEntry
  | [] => [a]
  | b :: l => if entryLt a b then a :: b :: l else b :: insertSorted a l

/-- `entriesArray.sort(cmp)` as a stable sort by the `(order, uid)` comparator. -/
def sortEntries (l : List WorldInfoEntry) : List WorldInfoEntry :=
  l.foldl (fun acc e => insertSorted e acc) []

/-- One iteration of the save loop (pull.ts 80-151): encode the entry against
the ids already taken, write the content file to the existing path when the
recursive search finds one (else a fresh `<id>.yaml` in the root), and append
the index record. -/
def saveStep (acc : List IndexEntry × List FsNode) (e : WorldInfoEntry) :
    List IndexEntry × List FsNode :=
  let (ixs, tree) := acc
  let p := entryToIndexAndContent e (ixs.map (·.id))
  let cfData := FileData.parsed p.2
  let tree' := match findEntryFile tree p.1.id with
    | some path => writeAt tree path cfData
    | none => tree ++ [FsNode.file (p.1.id ++ ".yaml") cfData]
  (ixs ++ [p.1], tree')
where
  /-- `fs.writeFileSync` at a path produced by `findEntryFile`: replace the
  file's bytes in place. -/
  writeAt : List FsNode → List String → FileData → List FsNode
    | ns, [], _ => ns
    | ns, [name], d => ns.map fun n => match n with
        | .file fn _ => if fn = name then .file fn d else n
        | .dir _ _ => n
    | ns, name :: rest, d => ns.map fun n => match n with
        | .dir dn kids => if dn = name then .dir dn (writeAt kids rest d) else n
        | .file _ _ => n

/-- Replace the first occurrence of `pat` (scanning left to right) by `rep`. -/
def replaceFirstChars (pat rep : List Char) : List Char → List Char
  | [] => []
  | c :: rest =>
    if pat.isPrefixOf (c :: rest) then rep ++ (c :: rest).drop pat.length
    else c :: replaceFirstChars pat rep rest

/-- `'b.yml'.replace('.yml', '.yaml')`: JavaScript `String.replace` with a
string pattern replaces the first occurrence only. -/
def replaceFirst (s pat rep : String) : String :=
  String.mk (replaceFirstChars pat.data rep.data s.data)

/-- `name.endsWith(suffix)`. -/
def strEndsWith (s suffix : String) : Bool :=
  suffix.data.isSuffixOf s.data

def isYamlName (s : String) : Bool :=
  strEndsWith s ".yaml" || strEndsWith s ".yml"

/-- The deletion test of pull.ts 159-163: a `.yaml`/`.yml` name neither in the
written set nor (after mapping `.yml` to `.yaml`) matching a written file. -/
def isOrphanName (written : List String) (name : String) : Bool :=
  isYamlName name && !written.any (· = name)
    && !written.any (· = replaceFirst name ".yml" ".yaml")

/-- The orphan-cleanup loop (pull.ts 156-171): `fs.readdirSync(entriesDir)`
yields the names of all direct children, directories included; each orphaned
name is `fs.unlinkSync`ed.  Unlinking a directory throws, and the surrounding
`try` turns that into a warning that abandons the rest of the loop — so a
directory with an orphaned-looking name is kept and stops further deletion. -/
def cleanupOrphans (written : List String) : List FsNode → List FsNode
  | [] => []
  | n :: rest =>
    if isOrphanName written n.name then
      match n with
      | .file _ _ => cleanupOrphans written rest
      | .dir _ _ => n :: rest
    else n :: cleanupOrphans written rest

/-- `PullService.saveWorldBookLocal` (pull.ts 27-186): validate and repair the
raw remote entries, sort by `(order, uid)`, run the save loop, delete orphans,
and write `index.yaml`.  Returns the new local state and the saved count. -/
def saveWorldBookLocal (name : Option String) (ents : RemoteEntries)
    (st : LocalState) : LocalState × Nat :=
  let entriesArray :=
    sortEntries ((rawRemoteList ents).filterMap fun r => validateEntry (normalizeLegacy r))
  let res := entriesArray.foldl saveStep ([], st.entriesTree)
  let written := res.1.map fun ix => ix.id ++ ".yaml"
  let tree2 := cleanupOrphans written res.2
  let idx : IndexFile :=
    { book_name := name, global_settings := some true, entries := res.1 }
  ({ index := some idx, entriesTree := tree2 }, res.1.length)

/-- `PullService.pullWorldBook` (pull.ts 193-206): fail when the response or
its `entries` field is null/undefined — an *empty but present* container is
truthy and proceeds — else save locally. -/
def pullWorldBook (worldBookName : String) (fetched : Option RemoteBook)
    (st : LocalState) : Except String LocalState :=
  match fetched with
  | none => Except.error ("Worldbook \"" ++ worldBookName ++ "\" not found or empty.")
  | some w =>
    match w.entries with
    | none => Except.error ("Worldbook \"" ++ worldBookName ++ "\" not found or empty.")
    | some ents => Except.ok (saveWorldBookLocal w.name ents st).1

/-! ## Identity resolver and diff engine (`DiffEngine.compareWorldBook`,
diff-engine.ts 20-107) -/

/-- The JavaScript WhiteSpace/LineTerminator classes stripped by
`String.prototype.trim` (TAB..CR, space, NBSP, LS, PS, BOM; the rarer
Unicode `Zs` members do not occur in this development). -/
def isJsWhitespaceChar (c : Char) : Bool :=
  (0x9 ≤ c.val ∧ c.val ≤ 0xD) || c = ' ' || c.val = 0xA0
    || c.val = 0x2028 || c.val = 0x2029 || c.val = 0xFEFF

/-- `comment.trim()`. -/
def trimJs (s : String) : String :=
  String.mk (((s.data.dropWhile isJsWhitespaceChar).reverse.dropWhile
    isJsWhitespaceChar).reverse)

/-- `getEntryIdentity` (diff-engine.ts 49-55): the trimmed comment when the
comment is non-empty after trimming, else the synthetic placeholder built from
the record key. -/
def getEntryIdentity (e : WorldInfoEntry) (fallbackId : String) : String :=
  match e.comment with
  | some c => if c ≠ "" ∧ trimJs c ≠ "" then trimJs c else "__index_" ++ fallbackId
  | none => "__index_" ++ fallbackId

/-- `Map.set`: update the binding in place when the key exists (preserving its
insertion position), else append. -/
def insertMap (m : List (String × WorldInfoEntry)) (k : String) (v : WorldInfoEntry) :
    List (String × WorldInfoEntry) :=
  match m with
  | [] => [(k, v)]
  | (k', v') :: rest => if k' = k then (k', v) :: rest else (k', v') :: insertMap rest k v

/-- `Map.get`. -/
def lookupMap (m : List (String × WorldInfoEntry)) (k : String) : Option WorldInfoEntry :=
  match m with
  | [] => none
  | (k', v) :: rest => if k' = k then some v else lookupMap rest k

/-- The identity-map construction of diff-engine.ts 57-78: iterate the record
entries in order and `Map.set` each one under its identity, so a duplicate
identity keeps the last-seen entry. -/
def buildIdentityMap (l : List (String × WorldInfoEntry)) :
    List (String × WorldInfoEntry) :=
  l.foldl (fun m p => insertMap m (getEntryIdentity p.2 p.1) p.2) []

/-- Normalisation of the remote container (diff-engine.ts 36-43): an array is
re-keyed by `String(e.uid)` (assignment into a record, so a duplicated uid
keeps the last entry), a map is taken as-is, and an absent container is empty. -/
def normalizeRemoteEntries (ents : Option RemoteEntries) :
    List (String × WorldInfoEntry) :=
  match ents with
  | none => []
  | some (.byMap m) => m
  | some (.byArr l) =>
    l.foldl (fun rec_ e => insertMap rec_ (toString e.uid) e) []

/-- The result of `compareWorldBook`.  A modified item records the compared
pair of canonical strings (the diff base `remoteYaml` first, the revision
`localYaml` second), modelling `diffLines(remoteYaml, localYaml)`. -/
structure DiffResult where
  localOnly : List String
  remoteOnly : List String
  modified : List (String × String × String)
deriving DecidableEq, Repr

/-- `DiffEngine.compareWorldBook`, with the already-fetched remote book as an
argument (the transport is outside the core). -/
def compareWorldBook (st : LocalState) (remote : RemoteBook) : DiffResult :=
  let localEntries := loadWorldBookFromLocal st
  let remoteRecord := normalizeRemoteEntries remote.entries
  let localMap := buildIdentityMap (localEntries.map fun p => (toString p.1, p.2))
  let remoteMap := buildIdentityMap remoteRecord
  let localKeys := localMap.map Prod.fst
  let remoteKeys := remoteMap.map Prod.fst
  let localOnly := localKeys.filter fun k => !remoteKeys.contains k
  let remoteOnly := remoteKeys.filter fun k => !localKeys.contains k
  let commonKeys := localKeys.filter fun k => remoteKeys.contains k
  let modified := commonKeys.filterMap fun k =>
    match lookupMap localMap k, lookupMap remoteMap k with
    | some le, some re =>
      let localYaml := canonString le
      let remoteYaml := canonString re
      if localYaml ≠ remoteYaml then some (k, remoteYaml, localYaml) else none
    | _, _ => none
  { localOnly := localOnly, remoteOnly := remoteOnly, modified := modified }

/-! ## Change watcher (`FileWatcher.triggerPush`, watch.ts 135-156)

The two flags `isPushing` / `pushQueue` form the state machine; one action is
either a (debounced) filesystem event delivered to `triggerPush`, or the
completion of the in-flight push (the `finally` block), which on a queued flag
clears it and synchronously re-invokes `triggerPush`.  Each step reports how
many pushes it starts. -/

structure WatcherState where
  isPushing : Bool
  pushQueue : Bool
deriving DecidableEq, Repr

inductive WatcherEvent where
  | fsChange
  | pushDone (success : Bool)
deriving DecidableEq, Repr

def watcherStep (s : WatcherState) : WatcherEvent → WatcherState × Nat
  | .fsChange =>
    if s.isPushing then ({ s with pushQueue := true }, 0)
    else ({ isPushing := true, pushQueue := s.pushQueue }, 1)
  | .pushDone _ =>
    if s.pushQueue then ({ isPushing := true, pushQueue := false }, 1)
    else ({ isPushing := false, pushQueue := s.pushQueue }, 0)

/-- Run a sequence of actions, returning the final state and the total number
of pushes started. -/
def watcherRun (s : WatcherState) : List WatcherEvent → WatcherState × Nat
  | [] => (s, 0)
  | ev :: rest =>
    let p := watcherStep s ev
    let q := watcherRun p.1 rest
    (q.1, p.2 + q.2)

/-- A trace is valid when a completion is only delivered while a push is in
flight. -/
def validTrace (s : WatcherState) : List WatcherEvent → Bool
  | [] => true
  | ev :: rest =>
    (match ev with
      | .pushDone _ => s.isPushing
      | .fsChange => true)
    && validTrace (watcherStep s ev).1 rest

/-- Number of completed pushes in a trace. -/
def completions : List WatcherEvent → Nat
  | [] => 0
  | .pushDone _ :: rest => completions rest + 1
  | .fsChange :: rest => completions rest

def idleState : WatcherState := { isPushing := false, pushQueue := false }

def inFlightState : WatcherState := { isPushing := true, pushQueue := false }

/-! ## Concrete fixtures -/

/-- An entry whose every field holds the default declared by
`WorldInfoEntrySchema` (note `excludeRecursion` and `preventRecursion` default
to `true` there), with the given content. -/
def defaultEntry (content : String) : WorldInfoEntry :=
  { uid := 0, key := [], keys := none, keysecondary := [], secondary_keys := none,
    comment := none, content := content, constant := false, selective := true,
    selectiveLogic := 0, order := 100, position := .num 0, disable := false,
    excludeRecursion := true, preventRecursion := true, delayUntilRecursion := false,
    probability := 100, useProbability := true, depth := 4, group := "",
    groupOverride := false, groupWeight := 100, scanDepth := none,
    caseSensitive := none, matchWholeWords := none, useGroupScoring := none,
    automationId := "", role := none, sticky := none, cooldown := none, delay := none }

/-- A default entry carrying a secondary key list — the field the content-file
encoder deliberately drops. -/
def c1Entry : WorldInfoEntry :=
  { defaultEntry "body" with comment := some "rule", key := ["k"], keysecondary := ["alpha"] }

/-- An index whose first entry carries `probability: 150` (rejected by the
Entry schema) and whose second is fine. -/
def c2Index : IndexFile :=
  { entries := [{ id := "a", probability := some 150 }, { id := "b" }] }

/-- A local book with the `c2Index` index; both content files exist. -/
def c2State : LocalState :=
  { index := some c2Index,
    entriesTree := [FsNode.file "a.yaml" (.parsed ⟨["x"], [], "ca"⟩),
                    FsNode.file "b.yaml" (.parsed ⟨["y"], [], "cb"⟩)] }

/-- An index listing `ghost` (whose content file will be missing) and `real`. -/
def c3Index : IndexFile :=
  { entries := [{ id := "ghost" }, { id := "real" }] }

/-- A local book whose first index entry (`ghost`) has no content file on disk
while the second (`real`) does. -/
def c3State : LocalState :=
  { index := some c3Index,
    entriesTree := [FsNode.file "real.yaml" (.parsed ⟨["r"], [], "cr"⟩)] }

/-- A subtree holding the entry file for `hero` inside a subdirectory. -/
def c7Tree : List FsNode :=
  [FsNode.dir "sub" [FsNode.file "hero.yaml" (.parsed ⟨[], [], ""⟩)]]

/-- A good round-trip subject: default entry with a non-empty comment. -/
def c1GoodEntry : WorldInfoEntry :=
  { defaultEntry "x" with comment := some "rule" }

/-- Direct children for the cleanup witness: one matched file, one orphan. -/
def c9Children : List FsNode :=
  [FsNode.file "a.yaml" (.parsed ⟨[], [], ""⟩), FsNode.file "b.yaml" (.parsed ⟨[], [], ""⟩)]

/-- A remote response whose `entries` container is present but empty. -/
def c8Book : RemoteBook := { name := some "b", entries := some (.byMap []) }

/-- A local state holding one stale entry file. -/
def c8State : LocalState :=
  { index := none, entriesTree := [FsNode.file "old.yaml" (.parsed ⟨[], [], ""⟩)] }

set_option maxRecDepth 40000

/-! ## Counterexamples -/

/-- C1 counterexample: the round trip is *not* canonical-string-preserving for
every entry.  `c1Entry` has `keysecondary = ["alpha"]`; `saveWorldBookLocal`
writes the content file with `keysecondary: []` ("User Request: No secondary
keys", pull.ts 98-101), so the decoded entry normalizes differently — the
discrepancy is in `keysecondary`, not in the exempted `uid`. -/
theorem roundtrip_canonical_counterexample :
    canonString (entryRoundTrip c1Entry 0) ≠ canonString c1Entry := by decide

/-- C2 counterexample: with one index entry failing Entry-schema validation
(`probability: 150`) and one valid entry, `pushWorldBook` does *not* abort: it
reaches the remote replace call with the reduced set containing only the valid
entry (record key `1`).  The invalid entry's content file exists, so the drop
is due to validation alone. -/
theorem push_validation_counterexample :
    (pushWorldBook c2State "wb").toOption.map (fun r => r.entries.map Prod.fst) = some [1]
    ∧ findEntryFile c2State.entriesTree "a" = some ["a.yaml"]
    ∧ (loadWorldBookFromLocal c2State).length = 1 := by decide

/-- C4 counterexample: the index record produced for an all-default entry does
*not* contain only `id`: `enabled`, `constant`, `position`, `order`, `depth`
are written unconditionally (pull.ts 117-126), and `excludeRecursion` /
`preventRecursion` (schema default `true`) are written because they are truthy. -/
theorem default_suppression_counterexample :
    (entryToIndexAndContent (defaultEntry "hi") []).1.enabled = some true
    ∧ (entryToIndexAndContent (defaultEntry "hi") []).1.constant = some false
    ∧ (entryToIndexAndContent (defaultEntry "hi") []).1.position = some (.num 0)
    ∧ (entryToIndexAndContent (defaultEntry "hi") []).1.order = some 100
    ∧ (entryToIndexAndContent (defaultEntry "hi") []).1.depth = some 4
    ∧ (entryToIndexAndContent (defaultEntry "hi") []).1.excludeRecursion = some true
    ∧ (entryToIndexAndContent (defaultEntry "hi") []).1.preventRecursion = some true := by
  decide

/-- C7 counterexample: `findEntryFile` compares names by exact string equality
and applies no Unicode normalization.  The id is U+00E9 (NFC "é"); the stored
file's base name is its canonical decomposition U+0065 U+0301 (the NFD form of
the same text); the search misses it. -/
theorem find_entry_file_counterexample :
    findEntryFile [FsNode.file ("e\u0301" ++ ".yaml") (FileData.parsed ⟨[], [], ""⟩)] "\u00e9" = none
    ∧ ("e\u0301" : String) ≠ "\u00e9" := by decide

/-- C8 counterexample: a fetched collection whose `entries` container is
present but empty is truthy, so `pullWorldBook` does *not* fail — it succeeds
and its orphan cleanup deletes the pre-existing local entry file. -/
theorem pull_empty_counterexample :
    (pullWorldBook "b" (some c8Book) c8State).toOption.map
        (fun st => st.entriesTree.map FsNode.name) = some [] := by decide

/-- C9 counterexample: a directory named `z.yaml` directly under `entries/`
triggers `fs.unlinkSync` on a directory, which throws; the surrounding `try`
abandons the cleanup loop, so the genuinely orphaned file `b.yaml` survives
(second conjunct: without the directory it would have been deleted). -/
theorem orphan_cleanup_counterexample :
    (cleanupOrphans ["a.yaml"]
        [FsNode.dir "z.yaml" [], FsNode.file "b.yaml" (.parsed ⟨[], [], ""⟩)]).map FsNode.name
      = ["z.yaml", "b.yaml"]
    ∧ (cleanupOrphans ["a.yaml"] [FsNode.file "b.yaml" (.parsed ⟨[], [], ""⟩)]).map FsNode.name
      = [] := by decide

/- ===== Watcher lemmas ===== -/

theorem validTrace_append_left {p q : List WatcherEvent} :
    ∀ {s : WatcherState}, validTrace s (p ++ q) = true → validTrace s p = true := by
  induction p with
  | nil => intro s _; rfl
  | cons ev rest ih =>
    intro s h
    simp only [List.cons_append, validTrace, Bool.and_eq_true] at h ⊢
    exact ⟨h.1, ih h.2⟩

theorem watcher_balance {t : List WatcherEvent} :
    ∀ {s : WatcherState}, validTrace s t = true →
      (watcherRun s t).2 + (if s.isPushing then 1 else 0)
        = completions t + (if (watcherRun s t).1.isPushing then 1 else 0) := by
  induction t with
  | nil => intro s _; simp [watcherRun, completions]
  | cons ev rest ih =>
    intro s h
    simp only [validTrace, Bool.and_eq_true] at h
    obtain ⟨h1, h2⟩ := h
    have ihr := ih h2
    cases ev with
    | fsChange =>
      by_cases hp : s.isPushing
      all_goals simp_all [watcherRun, watcherStep, completions]
      all_goals omega
    | pushDone b =>
      by_cases hq : s.pushQueue
      all_goals simp_all [watcherRun, watcherStep, completions]
      all_goals omega

theorem watcher_flush (b : Bool) :
    ∀ m, watcherRun { isPushing := true, pushQueue := true }
        (List.replicate m .fsChange ++ [.pushDone b]) = (inFlightState, 1) := by
  intro m
  induction m with
  | zero => simp [watcherRun, watcherStep, inFlightState]
  | succ k ih =>
    simp only [List.replicate_succ, List.cons_append, watcherRun, watcherStep]
    simpa using ih

/-- C5: the watcher's two-flag gate.  (1) Along any valid trace from the idle
state, at any prefix the number of pushes started exceeds the number completed
by at most one — at most one push is in flight at any time.  (2) For any
number `n ≥ 1` of events delivered while a push is in flight, the run of those
events plus the completion starts exactly one additional push (not `n`),
ending back in the in-flight-no-queue state.  (3) A failed completion drives
the machine exactly as a successful one: a push failure never terminates the
watch loop. -/
theorem watcher_coalescing :
    (∀ p q : List WatcherEvent, validTrace idleState (p ++ q) = true →
        (watcherRun idleState p).2 ≤ completions p + 1)
    ∧ (∀ (n : Nat) (b : Bool), 1 ≤ n →
        watcherRun inFlightState (List.replicate n .fsChange ++ [.pushDone b])
          = (inFlightState, 1))
    ∧ (∀ s : WatcherState, watcherStep s (.pushDone true) = watcherStep s (.pushDone false)) := by
  refine ⟨?_, ?_, ?_⟩
  · intro p q h
    have hb := watcher_balance (validTrace_append_left h)
    simp only [idleState] at hb ⊢
    simp only [Bool.false_eq_true, if_false] at hb
    split at hb <;> omega
  · intro n b hn
    obtain ⟨k, rfl⟩ := Nat.exists_eq_add_of_le hn
    have hf := watcher_flush b k
    rw [Nat.add_comm, List.replicate_succ]
    simp only [List.cons_append, watcherRun, watcherStep, inFlightState] at hf ⊢
    simp [hf]
  · intro s; rfl


/- ===== C8 amended ===== -/

/-- C8 amended: `pullWorldBook` errors exactly when the fetched value is
null/undefined or its `entries` container is; a present-but-empty container
does not fail (it proceeds to the local save and orphan cleanup).  In the
error case the result carries no new local state: the throw happens before
any write. -/
theorem pull_empty_amended (name : String) (fetched : Option RemoteBook) (st : LocalState) :
    (∃ msg, pullWorldBook name fetched st = Except.error msg)
      ↔ fetched = none ∨ ∃ w, fetched = some w ∧ w.entries = none := by
  cases fetched with
  | none => simp [pullWorldBook]
  | some w =>
    cases hw : w.entries with
    | none => simp [pullWorldBook, hw]
    | some ents => simp [pullWorldBook, hw]

/- ===== C4 amended ===== -/

/-- C4 amended: the index record of an all-default entry (any content).  Every
suppressible field is absent, but `id` is not alone: `enabled`, `constant`,
`position`, `order`, `depth` are written unconditionally, and the recursion
flags are written because their schema default is `true`. -/
theorem default_suppression_amended (s : String) :
    (entryToIndexAndContent (defaultEntry s) []).1 =
      { id := "entry_0", enabled := some true, constant := some false,
        position := some (.num 0), order := some 100, depth := some 4,
        excludeRecursion := some true, preventRecursion := some true } := by
  rfl

/- ===== Identity map lemmas ===== -/

theorem lookupMap_insertMap_self (m : List (String × WorldInfoEntry)) (k : String)
    (v : WorldInfoEntry) : lookupMap (insertMap m k v) k = some v := by
  induction m with
  | nil => simp [insertMap, lookupMap]
  | cons p rest ih =>
    by_cases h : p.1 = k <;> simp [insertMap, lookupMap, h, ih]

theorem lookupMap_insertMap_ne (m : List (String × WorldInfoEntry)) {k k' : String}
    (v : WorldInfoEntry) (h : k' ≠ k) :
    lookupMap (insertMap m k v) k' = lookupMap m k' := by
  induction m with
  | nil => simp [insertMap, lookupMap, Ne.symm h]
  | cons p rest ih =>
    by_cases hp : p.1 = k <;> by_cases hp' : p.1 = k' <;>
      simp_all [insertMap, lookupMap]

theorem getLast?_cons_getD (a : α) (l : List α) :
    (a :: l).getLast? = some (l.getLast?.getD a) := by
  induction l generalizing a with
  | nil => rfl
  | cons b t ih =>
    rw [List.getLast?_cons_cons, ih b]
    cases ht : t.getLast? <;> simp [List.getLast?_cons_cons, ih, ht]

theorem lookup_foldl_insert (l : List (String × WorldInfoEntry)) :
    ∀ (m : List (String × WorldInfoEntry)) (id : String),
      lookupMap (l.foldl (fun m p => insertMap m (getEntryIdentity p.2 p.1) p.2) m) id =
        match (l.filter fun p => getEntryIdentity p.2 p.1 = id).getLast? with
        | some p => some p.2
        | none => lookupMap m id := by
  induction l with
  | nil => intro m id; simp [lookupMap]
  | cons p rest ih =>
    intro m id
    by_cases h : getEntryIdentity p.2 p.1 = id
    · rw [List.foldl_cons, ih]
      rw [List.filter_cons_of_pos (by simpa using h)]
      rw [getLast?_cons_getD]
      cases hfr : (rest.filter fun q => getEntryIdentity q.2 q.1 = id).getLast? with
      | some q => simp [hfr]
      | none => simp [hfr, h, lookupMap_insertMap_self]
    · rw [List.foldl_cons, ih]
      rw [List.filter_cons_of_neg (by simpa using h)]
      cases hfr : (rest.filter fun q => getEntryIdentity q.2 q.1 = id).getLast? with
      | some q => simp [hfr]
      | none => simp [hfr, lookupMap_insertMap_ne _ _ (fun hh => h hh.symm)]

/-- C6: identity resolution.  (1) The alignment key is the trimmed comment
when the comment trims non-empty, else the synthetic placeholder built from
the record key.  (2) In the identity map the diff engine compares and reports,
a duplicated identity resolves to the last-seen entry of the iteration. -/
theorem identity_resolution :
    (∀ (e : WorldInfoEntry) (k : String),
        getEntryIdentity e k =
          (match e.comment with
            | some c => if trimJs c ≠ "" then trimJs c else "__index_" ++ k
            | none => "__index_" ++ k))
    ∧ ∀ (l : List (String × WorldInfoEntry)) (id : String),
        lookupMap (buildIdentityMap l) id =
          ((l.filter fun p => getEntryIdentity p.2 p.1 = id).getLast?).map Prod.snd := by
  constructor
  · intro e k
    cases hc : e.comment with
    | none => simp [getEntryIdentity, hc]
    | some c =>
      by_cases h0 : c = ""
      · subst h0; simp [getEntryIdentity, hc]; rfl
      · simp [getEntryIdentity, hc, h0]
  · intro l id
    rw [buildIdentityMap, lookup_foldl_insert]
    cases hfr : (l.filter fun p => getEntryIdentity p.2 p.1 = id).getLast? with
    | some q => simp [hfr]
    | none => simp [hfr, lookupMap]

/- ===== Keys membership lemmas (C10) ===== -/

theorem mem_keys_insertMap_self (m : List (String × WorldInfoEntry)) (k : String)
    (v : WorldInfoEntry) : k ∈ (insertMap m k v).map Prod.fst := by
  induction m with
  | nil => simp [insertMap]
  | cons p rest ih =>
    by_cases h : p.1 = k <;> simp [insertMap, h, ih]

theorem mem_keys_insertMap_of (m : List (String × WorldInfoEntry)) (k : String)
    (v : WorldInfoEntry) {k' : String} (h : k' ∈ m.map Prod.fst) :
    k' ∈ (insertMap m k v).map Prod.fst := by
  induction m with
  | nil => simp at h
  | cons p rest ih =>
    by_cases hp : p.1 = k
    · simpa [insertMap, hp] using (by simpa [hp] using h)
    · simp only [List.map_cons, List.mem_cons] at h
      rcases h with h | h
      · simp [insertMap, hp, h]
      · simp [insertMap, hp, ih h]

theorem mem_keys_foldl_insert (l : List (String × WorldInfoEntry)) :
    ∀ (m : List (String × WorldInfoEntry)),
      (∀ k ∈ m.map Prod.fst,
          k ∈ ((l.foldl (fun m p => insertMap m (getEntryIdentity p.2 p.1) p.2) m).map Prod.fst))
      ∧ ∀ p ∈ l, getEntryIdentity p.2 p.1
          ∈ ((l.foldl (fun m p => insertMap m (getEntryIdentity p.2 p.1) p.2) m).map Prod.fst) := by
  induction l with
  | nil => intro m; exact ⟨fun k hk => hk, by simp⟩
  | cons p rest ih =>
    intro m
    constructor
    · intro k hk
      exact (ih _).1 k (mem_keys_insertMap_of m _ _ hk)
    · intro q hq
      rcases List.mem_cons.mp hq with rfl | hq'
      · exact (ih _).1 _ (mem_keys_insertMap_self m _ _)
      · exact (ih _).2 q hq'

theorem mem_keys_buildIdentityMap {l : List (String × WorldInfoEntry)}
    {p : String × WorldInfoEntry} (h : p ∈ l) :
    getEntryIdentity p.2 p.1 ∈ (buildIdentityMap l).map Prod.fst :=
  (mem_keys_foldl_insert l []).2 p h

/-- C10: on a directory with no `index.yaml`, `loadWorldBookFromLocal` returns
the empty entry record instead of raising, and `compareWorldBook` therefore
returns empty `localOnly` and `modified` lists and classifies every remote
entry as remote-only (its identity appears in `remoteOnly`, which is exactly
the remote identity-map key list). -/
theorem compare_uninitialized_dir (tree : List FsNode) (remote : RemoteBook) :
    loadWorldBookFromLocal { index := none, entriesTree := tree } = []
    ∧ (compareWorldBook { index := none, entriesTree := tree } remote).localOnly = []
    ∧ (compareWorldBook { index := none, entriesTree := tree } remote).modified = []
    ∧ (compareWorldBook { index := none, entriesTree := tree } remote).remoteOnly
        = (buildIdentityMap (normalizeRemoteEntries remote.entries)).map Prod.fst
    ∧ ∀ p ∈ normalizeRemoteEntries remote.entries,
        getEntryIdentity p.2 p.1
          ∈ (compareWorldBook { index := none, entriesTree := tree } remote).remoteOnly := by
  refine ⟨rfl, ?_, ?_, ?_, ?_⟩
  · simp [compareWorldBook, loadWorldBookFromLocal, buildIdentityMap]
  · simp [compareWorldBook, loadWorldBookFromLocal, buildIdentityMap]
  · simp [compareWorldBook, loadWorldBookFromLocal, buildIdentityMap]
  · intro p hp
    have := mem_keys_buildIdentityMap hp
    simpa [compareWorldBook, loadWorldBookFromLocal, buildIdentityMap] using this

/- ===== Load membership lemmas (C2, C3) ===== -/

theorem mem_enumFrom {α : Type} (l : List α) :
    ∀ (k j : Nat) (a : α), (j, a) ∈ enumFrom k l → k ≤ j ∧ l[j - k]? = some a := by
  induction l with
  | nil => intro k j a h; simp [enumFrom] at h
  | cons b rest ih =>
    intro k j a h
    rw [enumFrom, List.mem_cons] at h
    rcases h with h | h
    · rw [Prod.mk.injEq] at h
      obtain ⟨rfl, rfl⟩ := h
      simp
    · obtain ⟨hk, hget⟩ := ih (k + 1) j a h
      refine ⟨by omega, ?_⟩
      have : j - k = (j - (k + 1)) + 1 := by omega
      rw [this, List.getElem?_cons_succ]
      exact hget

theorem load_mem {st : LocalState} {p : Nat × WorldInfoEntry}
    (h : p ∈ loadWorldBookFromLocal st) :
    ∃ idx ix, st.index = some idx ∧ idx.entries[p.1]? = some ix
      ∧ processIndexEntry st.entriesTree p.1 ix = some p.2 := by
  cases hidx : st.index with
  | none => rw [loadWorldBookFromLocal, hidx] at h; simp at h
  | some idx =>
    rw [loadWorldBookFromLocal, hidx] at h
    obtain ⟨q, hq, hmap⟩ := List.mem_filterMap.mp h
    obtain ⟨e, he, hpe⟩ := Option.map_eq_some'.mp hmap
    obtain ⟨hk, hget⟩ := mem_enumFrom idx.entries 0 q.1 q.2 hq
    refine ⟨idx, q.2, rfl, ?_, ?_⟩
    · rw [← hpe]; simpa using hget
    · rw [← hpe]; simpa using he

theorem validateEntry_idem {x e : WorldInfoEntry} (h : validateEntry x = some e) :
    validateEntry e = some e := by
  rw [validateEntry] at h
  by_cases hc : 0 ≤ x.probability ∧ x.probability ≤ 100
  · rw [if_pos hc] at h
    cases h
    rw [validateEntry, if_pos hc]
  · rw [if_neg hc] at h
    cases h

theorem processIndexEntry_validated {tree : List FsNode} {i : Nat} {ix : IndexEntry}
    {e : WorldInfoEntry} (h : processIndexEntry tree i ix = some e) :
    validateEntry e = some e := by
  rw [processIndexEntry] at h
  split at h
  · exact Option.noConfusion h
  · split at h
    · exact Option.noConfusion h
    · split at h
      · exact validateEntry_idem h
      · exact Option.noConfusion h

/-- Helper shared by the push-related claims: with `index.yaml` present the
push always reaches the remote call and sends exactly the loaded entry set. -/
theorem pushWorldBook_sends_load (st : LocalState) (idx : IndexFile) (name : String)
    (hidx : st.index = some idx) :
    pushWorldBook st name
      = Except.ok { name := name, entries := loadWorldBookFromLocal st } := by
  have hval : validateWorldInfo (loadWorldBookFromLocal st) = true := by
    rw [validateWorldInfo, List.all_eq_true]
    intro p hp
    obtain ⟨idx2, ix2, _, _, hproc⟩ := load_mem hp
    rw [processIndexEntry_validated hproc]
    rfl
  rw [pushWorldBook, hidx]
  simp [hval]

/-- C3: an index entry whose id resolves to no content file is silently
omitted: no record under its index position appears in the loaded entry set,
the load itself succeeds (it is total), and consequently the position is
absent from the entry set any subsequent `pushWorldBook` hands to the remote
replace call. -/
theorem load_missing_file_skipped (st : LocalState) (idx : IndexFile) (i : Nat)
    (ix : IndexEntry) (hidx : st.index = some idx) (hget : idx.entries[i]? = some ix)
    (hid : ix.id ≠ "") (hmiss : findEntryFile st.entriesTree ix.id = none) :
    ((loadWorldBookFromLocal st).any fun p => p.1 == i) = false
    ∧ ∀ (name : String) (res : PushPayload), pushWorldBook st name = Except.ok res →
        (res.entries.any fun p => p.1 == i) = false := by
  have hproc : processIndexEntry st.entriesTree i ix = none := by
    rw [processIndexEntry, if_neg hid, hmiss]
  have hmain : ((loadWorldBookFromLocal st).any fun p => p.1 == i) = false := by
    rw [List.any_eq_false]
    rintro p hp hbeq
    have hpi : p.1 = i := by simpa using hbeq
    obtain ⟨idx2, ix2, hidx2, hget2, hproc2⟩ := load_mem hp
    rw [hidx] at hidx2
    cases hidx2
    rw [hpi, hget] at hget2
    cases hget2
    rw [hpi] at hproc2
    rw [hproc] at hproc2
    cases hproc2
  refine ⟨hmain, ?_⟩
  intro name res hok
  rw [pushWorldBook_sends_load st idx name hidx] at hok
  cases hok
  exact hmain

/-- C2 amended: a per-entry schema failure during load does not abort the
push; `pushWorldBook` always reaches the remote replace call with exactly the
(possibly reduced) entry set `loadWorldBookFromLocal` produced, because every
surviving entry has already passed validation, so the collection-level check
cannot fail.  Only a missing `index.yaml` aborts before the remote call. -/
theorem push_validation_amended (st : LocalState) (idx : IndexFile) (name : String)
    (hidx : st.index = some idx) :
    pushWorldBook st name
      = Except.ok { name := name, entries := loadWorldBookFromLocal st } :=
  pushWorldBook_sends_load st idx name hidx

/- ===== Search predicate and lemmas (C7) ===== -/

mutual
/-- A node holds (or contains, for a directory) a file whose base name is
exactly `entryId` with a `.yaml` or `.yml` extension. -/
def hasEntryNode (entryId : String) : FsNode → Bool
  | .file fname _ => fname = entryId ++ ".yaml" || fname = entryId ++ ".yml"
  | .dir _ kids => hasEntryList entryId kids

/-- Some node of the listing holds such a file. -/
def hasEntryList (entryId : String) : List FsNode → Bool
  | [] => false
  | n :: rest => hasEntryNode entryId n || hasEntryList entryId rest
end

mutual
theorem searchEntryNode_isSome_of_has (entryId : String) :
    ∀ (n : FsNode), hasEntryNode entryId n = true → (searchEntryNode entryId n).isSome = true
  | .file fname d, h => by
    rw [hasEntryNode] at h
    rw [searchEntryNode, if_pos (by simpa using h)]
    rfl
  | .dir dname kids, h => by
    rw [hasEntryNode] at h
    have hk := searchEntry_isSome_of_has entryId kids h
    rw [searchEntryNode]
    cases hs : searchEntry entryId kids with
    | none => rw [hs] at hk; cases hk
    | some p => rfl

theorem searchEntry_isSome_of_has (entryId : String) :
    ∀ (l : List FsNode), hasEntryList entryId l = true → (searchEntry entryId l).isSome = true
  | n :: rest, h => by
    rw [hasEntryList, Bool.or_eq_true] at h
    rw [searchEntry]
    cases hn : searchEntryNode entryId n with
    | some p => rfl
    | none =>
      rcases h with h | h
      · have := searchEntryNode_isSome_of_has entryId n h
        rw [hn] at this
        cases this
      · exact searchEntry_isSome_of_has entryId rest h
end

/-- C7 amended: when the subtree holds a file whose base name is *exactly*
`entryId` (plus `.yaml`/`.yml`), `findEntryFile` returns a path — via the fast
path or the recursive depth-first search.  The comparison is plain string
equality: no Unicode normalization is applied (the counterexample shows an
NFD-stored name is missed for an NFC id). -/
theorem find_entry_file_amended (tree : List FsNode) (entryId : String)
    (h : hasEntryList entryId tree = true) :
    (findEntryFile tree entryId).isSome = true := by
  rw [findEntryFile]
  split
  · rfl
  · split
    · rfl
    · exact searchEntry_isSome_of_has entryId tree h

/- ===== Orphan cleanup (C9) ===== -/

theorem isYamlName_of_isOrphanName {w : List String} {s : String}
    (h : isOrphanName w s = true) : isYamlName s = true := by
  rw [isOrphanName] at h
  simp only [Bool.and_eq_true] at h
  exact h.1.1

theorem cleanupOrphans_sublist (written : List String) :
    ∀ children : List FsNode, List.Sublist (cleanupOrphans written children) children := by
  intro children
  induction children with
  | nil => simp [cleanupOrphans]
  | cons n rest ih =>
    by_cases ho : isOrphanName written n.name = true
    · simp only [cleanupOrphans]
      rw [if_pos ho]
      cases n with
      | file nm d => exact List.Sublist.cons _ ih
      | dir nm kids => exact List.Sublist.refl _
    · simp only [cleanupOrphans]
      rw [if_neg ho]
      exact List.Sublist.cons₂ _ ih

/-- C9 amended: provided no *directory* directly under `entries/` carries a
`.yaml`/`.yml` name (unlinking a directory throws and the caught error
abandons the rest of the loop), the cleanup deletes exactly the orphan-named
files among the direct children: the result is the listing filtered to the
non-orphans, so every unmatched `.yaml`/`.yml` file is gone, every matched
file remains, and — unconditionally — the cleanup only ever removes direct
children whole, never touching the inside of a subdirectory. -/
theorem orphan_cleanup_amended (written : List String) (children : List FsNode)
    (hfiles : ∀ n ∈ children, isYamlName n.name = true → ∃ nm d, n = FsNode.file nm d) :
    cleanupOrphans written children
        = children.filter (fun n => !(isOrphanName written n.name))
    ∧ List.Sublist (cleanupOrphans written children) children := by
  constructor
  · induction children with
    | nil => rfl
    | cons n rest ih =>
      by_cases ho : isOrphanName written n.name = true
      · obtain ⟨nm, d, rfl⟩ := hfiles n (by simp) (isYamlName_of_isOrphanName ho)
        simp only [cleanupOrphans]
        rw [if_pos ho]
        rw [List.filter_cons_of_neg (by simp [ho])]
        exact ih (fun m hm => hfiles m (by simp [hm]))
      · simp only [cleanupOrphans]
        rw [if_neg ho]
        rw [List.filter_cons_of_pos (by simp [Bool.not_eq_true'] at ho ⊢; exact ho)]
        rw [ih (fun m hm => hfiles m (by simp [hm]))]
  · exact cleanupOrphans_sublist written children

/- ===== Round trip (C1) ===== -/

/-- C1 amended: the per-entry round trip preserves the canonical normalized
string (with `uid` reassigned to the position, which the normalizer ignores)
for every entry the local representation can faithfully carry: non-empty
comment, empty `keysecondary` (the encoder drops it), numeric `position`,
`selectiveLogic = 0`, `useProbability = true`, null `scanDepth`,
`caseSensitive` and `matchWholeWords` not `false`, `groupOverride = false`,
`groupWeight = 100`, no legacy alias fields, and an in-range probability; the
decoded entry also passes schema validation. -/
theorem roundtrip_canonical_amended (e : WorldInfoEntry) (c : String) (i : Nat)
    (hcomm : e.comment = some c) (hc : c ≠ "")
    (hsec : e.keysecondary = [])
    (hkeys : e.keys = none) (hskeys : e.secondary_keys = none)
    (hpos : ∃ n, e.position = JPos.num n)
    (hlogic : e.selectiveLogic = 0)
    (huse : e.useProbability = true)
    (hscan : e.scanDepth = none)
    (hcase : e.caseSensitive ≠ some false)
    (hmatch : e.matchWholeWords ≠ some false)
    (hgo : e.groupOverride = false)
    (hgw : e.groupWeight = 100)
    (hprob : 0 ≤ e.probability ∧ e.probability ≤ 100) :
    validateEntry (entryRoundTrip e i) = some (entryRoundTrip e i)
    ∧ canonString (entryRoundTrip e i) = canonString e := by
  obtain ⟨pn, hposn⟩ := hpos
  have hAuto : (entryRoundTrip e i).automationId = e.automationId := by
    by_cases h : e.automationId = "" <;>
      simp [entryRoundTrip, entryToIndexAndContent, indexAndContentToEntry, h]
  have hCase : (entryRoundTrip e i).caseSensitive = e.caseSensitive := by
    cases hcs : e.caseSensitive with
    | none => simp [entryRoundTrip, entryToIndexAndContent, indexAndContentToEntry, hcs]
    | some b =>
      cases b
      · exact absurd hcs hcase
      · simp [entryRoundTrip, entryToIndexAndContent, indexAndContentToEntry, hcs]
  have hComment : (entryRoundTrip e i).comment = e.comment := by
    by_cases hcf : c = uniquify [] (safeNameOf e) <;>
      simp [entryRoundTrip, entryToIndexAndContent, indexAndContentToEntry, hcomm, hc, hcf]
  have hConstant : (entryRoundTrip e i).constant = e.constant := by
    simp [entryRoundTrip, entryToIndexAndContent, indexAndContentToEntry]
  have hContent : (entryRoundTrip e i).content = e.content := rfl
  have hCooldown : optFieldZero "cooldown" (entryRoundTrip e i).cooldown
      = optFieldZero "cooldown" e.cooldown := by
    cases hv : e.cooldown with
    | none => simp [entryRoundTrip, entryToIndexAndContent, indexAndContentToEntry, hv]
    | some n =>
      by_cases hn : n = 0 <;>
        simp [entryRoundTrip, entryToIndexAndContent, indexAndContentToEntry, hv, hn,
          optFieldZero]
  have hDelay : optFieldZero "delay" (entryRoundTrip e i).delay
      = optFieldZero "delay" e.delay := by
    cases hv : e.delay with
    | none => simp [entryRoundTrip, entryToIndexAndContent, indexAndContentToEntry, hv]
    | some n =>
      by_cases hn : n = 0 <;>
        simp [entryRoundTrip, entryToIndexAndContent, indexAndContentToEntry, hv, hn,
          optFieldZero]
  have hDUR : (entryRoundTrip e i).delayUntilRecursion = e.delayUntilRecursion := by
    cases hv : e.delayUntilRecursion <;>
      simp [entryRoundTrip, entryToIndexAndContent, indexAndContentToEntry, hv]
  have hDepth : (entryRoundTrip e i).depth = e.depth := by
    simp [entryRoundTrip, entryToIndexAndContent, indexAndContentToEntry]
  have hDisable : (entryRoundTrip e i).disable = e.disable := by
    cases hv : e.disable <;>
      simp [entryRoundTrip, entryToIndexAndContent, indexAndContentToEntry, hv]
  have hExcl : (entryRoundTrip e i).excludeRecursion = e.excludeRecursion := by
    cases hv : e.excludeRecursion <;>
      simp [entryRoundTrip, entryToIndexAndContent, indexAndContentToEntry, hv]
  have hGroup : (entryRoundTrip e i).group = e.group := by
    by_cases h : e.group = "" <;>
      simp [entryRoundTrip, entryToIndexAndContent, indexAndContentToEntry, h]
  have hGO : (entryRoundTrip e i).groupOverride = e.groupOverride := by
    simp [entryRoundTrip, entryToIndexAndContent, indexAndContentToEntry, hgo]
  have hGW : (entryRoundTrip e i).groupWeight = e.groupWeight := by
    simp [entryRoundTrip, entryToIndexAndContent, indexAndContentToEntry, hgw]
  have hKey : (entryRoundTrip e i).key = e.key := rfl
  have hKeys : (entryRoundTrip e i).keys = e.keys := by
    simp [entryRoundTrip, entryToIndexAndContent, indexAndContentToEntry, hkeys]
  have hKeysec : (entryRoundTrip e i).keysecondary = e.keysecondary := by
    simp [entryRoundTrip, entryToIndexAndContent, indexAndContentToEntry, hsec]
  have hMatch : (entryRoundTrip e i).matchWholeWords = e.matchWholeWords := by
    cases hcs : e.matchWholeWords with
    | none => simp [entryRoundTrip, entryToIndexAndContent, indexAndContentToEntry, hcs]
    | some b =>
      cases b
      · exact absurd hcs hmatch
      · simp [entryRoundTrip, entryToIndexAndContent, indexAndContentToEntry, hcs]
  have hOrder : (entryRoundTrip e i).order = e.order := by
    simp [entryRoundTrip, entryToIndexAndContent, indexAndContentToEntry]
  have hPos : (entryRoundTrip e i).position = e.position := by
    simp [entryRoundTrip, entryToIndexAndContent, indexAndContentToEntry, hposn]
  have hPrev : (entryRoundTrip e i).preventRecursion = e.preventRecursion := by
    cases hv : e.preventRecursion <;>
      simp [entryRoundTrip, entryToIndexAndContent, indexAndContentToEntry, hv]
  have hProb : (entryRoundTrip e i).probability = e.probability := by
    by_cases h : e.probability = 100 <;>
      simp [entryRoundTrip, entryToIndexAndContent, indexAndContentToEntry, h]
  have hRole : optFieldZero "role" (entryRoundTrip e i).role
      = optFieldZero "role" e.role := by
    cases hv : e.role with
    | none => simp [entryRoundTrip, entryToIndexAndContent, indexAndContentToEntry, hv,
        optFieldZero]
    | some n =>
      by_cases hn : n = 0 <;>
        simp [entryRoundTrip, entryToIndexAndContent, indexAndContentToEntry, hv, hn,
          optFieldZero]
  have hScan : (entryRoundTrip e i).scanDepth = e.scanDepth := by
    simp [entryRoundTrip, entryToIndexAndContent, indexAndContentToEntry, hscan]
  have hSkeys : (entryRoundTrip e i).secondary_keys = e.secondary_keys := by
    simp [entryRoundTrip, entryToIndexAndContent, indexAndContentToEntry, hskeys]
  have hSel : (entryRoundTrip e i).selective = e.selective := by
    cases hv : e.selective <;>
      simp [entryRoundTrip, entryToIndexAndContent, indexAndContentToEntry, hv]
  have hLogic : (entryRoundTrip e i).selectiveLogic = e.selectiveLogic := by
    simp [entryRoundTrip, entryToIndexAndContent, indexAndContentToEntry, hlogic]
  have hSticky : optFieldZero "sticky" (entryRoundTrip e i).sticky
      = optFieldZero "sticky" e.sticky := by
    cases hv : e.sticky with
    | none => simp [entryRoundTrip, entryToIndexAndContent, indexAndContentToEntry, hv]
    | some n =>
      by_cases hn : n = 0 <;>
        simp [entryRoundTrip, entryToIndexAndContent, indexAndContentToEntry, hv, hn,
          optFieldZero]
  have hUse : (entryRoundTrip e i).useProbability = e.useProbability := by
    simp [entryRoundTrip, entryToIndexAndContent, indexAndContentToEntry, huse]
  have hnorm : normalizeEntry (entryRoundTrip e i) = normalizeEntry e := by
    rw [normalizeEntry, normalizeEntry]
    rw [hAuto, hCase, hComment, hConstant, hContent, hCooldown, hDelay, hDUR, hDepth,
      hDisable, hExcl, hGroup, hGO, hGW, hKey, hKeys, hKeysec, hMatch, hOrder, hPos,
      hPrev, hProb, hRole, hScan, hSkeys, hSel, hLogic, hSticky, hUse]
  refine ⟨?_, ?_⟩
  · rw [validateEntry, hProb, if_pos hprob]
  · rw [canonString, canonString, hnorm]


/-! ## Witnesses -/

/-- C1 witness: the amended round-trip theorem at a concrete entry. -/
theorem roundtrip_canonical_witness :
    validateEntry (entryRoundTrip c1GoodEntry 7) = some (entryRoundTrip c1GoodEntry 7)
    ∧ canonString (entryRoundTrip c1GoodEntry 7) = canonString c1GoodEntry :=
  roundtrip_canonical_amended c1GoodEntry "rule" 7 rfl (by decide) rfl rfl rfl
    ⟨0, rfl⟩ rfl rfl rfl (by decide) (by decide) rfl rfl (by decide)

/-- C2 witness: the amended push theorem at the concrete two-entry book. -/
theorem push_validation_witness :
    pushWorldBook c2State "wb"
      = Except.ok { name := "wb", entries := loadWorldBookFromLocal c2State } :=
  push_validation_amended c2State c2Index "wb" rfl

/-- C3 witness: the missing-file theorem at the concrete `ghost`/`real` book. -/
theorem load_missing_file_witness :
    ((loadWorldBookFromLocal c3State).any fun p => p.1 == 0) = false :=
  (load_missing_file_skipped c3State c3Index 0 { id := "ghost" } rfl rfl
    (by decide) (by decide)).1

/-- C5 witness: the coalescing theorem at one prefix event and at five rapid
events during an in-flight push. -/
theorem watcher_coalescing_witness :
    (watcherRun idleState [WatcherEvent.fsChange]).2
        ≤ completions [WatcherEvent.fsChange] + 1
    ∧ watcherRun inFlightState
        (List.replicate 5 WatcherEvent.fsChange ++ [WatcherEvent.pushDone false])
        = (inFlightState, 1) :=
  ⟨watcher_coalescing.1 [WatcherEvent.fsChange] [] (by decide),
    watcher_coalescing.2.1 5 false (by decide)⟩

/-- C7 witness: the amended search theorem finds a file nested one level down. -/
theorem find_entry_file_witness : (findEntryFile c7Tree "hero").isSome = true :=
  find_entry_file_amended c7Tree "hero" (by decide)

/-- C9 witness: the amended cleanup theorem at a two-file listing. -/
theorem orphan_cleanup_witness :
    cleanupOrphans ["a.yaml"] c9Children
        = c9Children.filter (fun n => !(isOrphanName ["a.yaml"] n.name))
    ∧ List.Sublist (cleanupOrphans ["a.yaml"] c9Children) c9Children :=
  orphan_cleanup_amended ["a.yaml"] c9Children (by
    intro n hn hy
    rcases List.mem_cons.mp hn with rfl | hn
    · exact ⟨_, _, rfl⟩
    · rcases List.mem_cons.mp hn with rfl | hn
      · exact ⟨_, _, rfl⟩
      · simp at hn)

end CCS
